import Mathlib

/-!
Verification of the `parse-sse` Server-Sent-Events parser.

The JavaScript source (`src/index.js`) is embedded shallowly: JS strings
become `List Char`, the mutable closure state of the TransformStream
becomes an explicit `StreamState` record, and the `transform` / `flush`
callbacks become pure state-passing functions producing the list of
enqueued event records.
-/

set_option maxHeartbeats 1000000

/-- The in-progress event accumulator, mirroring `createEvent()` in the
source: `{type: '', data: '', retry: undefined}`. -/
structure SSEvent where
  type : List Char
  data : List Char
  retry : Option Nat
deriving DecidableEq, Repr

/-- An emitted event record, mirroring the object passed to
`controller.enqueue` in `dispatchEvent`. -/
structure OutEvent where
  type : List Char
  data : List Char
  lastEventId : List Char
  retry : Option Nat
deriving DecidableEq, Repr

/-- `createEvent()` from the source. -/
def createEvent : SSEvent := ⟨[], [], none⟩

/-- The mutable closure state of `ServerSentEventTransformStream`:
`buffer`, `isFirstChunk`, `event`, `lastEventId`. -/
structure StreamState where
  buffer : List Char
  isFirstChunk : Bool
  event : SSEvent
  lastEventId : List Char
deriving DecidableEq, Repr

/-- The state at construction time. -/
def initState : StreamState := ⟨[], true, createEvent, []⟩

/-- `buffer.split(/\r\n|\r|\n/)`: split at every line terminator, where a
CR immediately followed by LF counts as a single terminator (the regex
alternation tries `\r\n` first at each position). -/
def splitLines : List Char → List (List Char)
  | [] => [[]]
  | '\r' :: '\n' :: rest => [] :: splitLines rest
  | '\r' :: rest => [] :: splitLines rest
  | '\n' :: rest => [] :: splitLines rest
  | c :: rest =>
    match splitLines rest with
    | [] => [[c]]
    | l :: ls => (c :: l) :: ls

/-- The first-chunk replace of a leading U+FEFF by the empty string:
drop a single leading byte-order mark, if present. -/
def stripBOM (l : List Char) : List Char :=
  if l.head? = some '\uFEFF' then l.tail else l

/-- `line.slice(0, colonIndex)` where `colonIndex = line.indexOf(':')`
(the whole line when there is no colon). -/
def fieldOf (line : List Char) : List Char :=
  line.takeWhile (fun c => c != ':')

/-- `line.slice(colonIndex + 1)` (empty when there is no colon). -/
def rawValue (line : List Char) : List Char :=
  (line.dropWhile (fun c => c != ':')).tail

/-- The value with at most one leading space removed:
`if (value.startsWith(' ')) value = value.slice(1)`. -/
def valueOf (line : List Char) : List Char :=
  if (rawValue line).head? = some ' ' then (rawValue line).tail else rawValue line

/-- `Number.parseInt(value, 10)` on a string of ASCII digits. -/
def parseDigits (v : List Char) : Nat :=
  v.foldl (fun n c => n * 10 + (c.toNat - 48)) 0

/-- `processField(line, event, setLastEventId)` from the source: splits
the line at the first colon, strips one leading space from the value, and
switches on the field name.  The returned pair is the updated in-progress
event and the updated connection-scoped `lastEventId`. -/
def processField (line : List Char) (event : SSEvent) (lastEventId : List Char) :
    SSEvent × List Char :=
  if fieldOf line = ("event").toList then
    ({ event with type := valueOf line }, lastEventId)
  else if fieldOf line = ("data").toList then
    ({ event with data := event.data ++ valueOf line ++ ['\n'] }, lastEventId)
  else if fieldOf line = ("id").toList then
    (if '\x00' ∈ valueOf line then (event, lastEventId) else (event, valueOf line))
  else if fieldOf line = ("retry").toList then
    (if valueOf line ≠ [] ∧ (valueOf line).all Char.isDigit then
      ({ event with retry := some (parseDigits (valueOf line)) }, lastEventId)
    else (event, lastEventId))
  else (event, lastEventId)

/-- `data.endsWith('\n') ? data.slice(0, -1) : data` in `dispatchEvent`. -/
def trimData (d : List Char) : List Char :=
  if d.getLast? = some '\n' then d.dropLast else d

/-- `dispatchEvent(event, controller, lastEventId)`: `none` models "no
enqueue" (empty data after trimming), `some` models the enqueued record;
`event.type || 'message'` defaults an empty type. -/
def dispatchEvent (event : SSEvent) (lastEventId : List Char) : Option OutEvent :=
  if trimData event.data = [] then none
  else some
    ⟨if event.type = [] then ("message").toList else event.type,
     trimData event.data, lastEventId, event.retry⟩

/-- The `for (const line of lines)` loop body of `transform`, iterated
over a list of complete lines: empty line → dispatch attempt and fresh
event; line starting with `:` → skipped; otherwise `processField`.
Returns the final (event, lastEventId) and the records emitted. -/
def processLines : List (List Char) → SSEvent → List Char →
    (SSEvent × List Char) × List OutEvent
  | [], e, lid => ((e, lid), [])
  | l :: ls, e, lid =>
    if l = [] then
      let r := processLines ls createEvent lid
      (r.1, (dispatchEvent e lid).toList ++ r.2)
    else if l.head? = some ':' then
      processLines ls e lid
    else
      let p := processField l e lid
      processLines ls p.1 p.2

/-- The body of `transform` after the BOM step: append the text to the
buffer, split into lines, keep the unterminated tail (`lines.pop() ?? ''`)
as the new buffer, and run the line loop on the complete lines. -/
def transformCore (text : List Char) (st : StreamState) : StreamState × List OutEvent :=
  let lines := splitLines (st.buffer ++ text)
  let r := processLines lines.dropLast st.event st.lastEventId
  (⟨lines.getLastD [], false, r.1.1, r.1.2⟩, r.2)

/-- `transform(chunk, controller)` for a string chunk: strip the BOM on
the first chunk only, then run the shared body. -/
def transform (chunk : List Char) (st : StreamState) : StreamState × List OutEvent :=
  transformCore (if st.isFirstChunk then stripBOM chunk else chunk) st

/-- `flush(controller)`: process a non-empty, non-comment remainder as a
final line, then make a final dispatch attempt. -/
def flush (st : StreamState) : List OutEvent :=
  let p :=
    if st.buffer ≠ [] ∧ st.buffer.head? ≠ some ':' then
      processField st.buffer st.event st.lastEventId
    else (st.event, st.lastEventId)
  (dispatchEvent p.1 p.2).toList

/-- Push a list of string chunks through successive `transform` calls. -/
def runTransform : List (List Char) → StreamState → StreamState × List OutEvent
  | [], st => (st, [])
  | c :: cs, st =>
    let r := transform c st
    let r2 := runTransform cs r.1
    (r2.1, r.2 ++ r2.2)

/-- The whole stream: all chunks through `transform`, then `flush`. -/
def runChunks (chunks : List (List Char)) : List OutEvent :=
  let r := runTransform chunks initState
  r.2 ++ flush r.1

/-- A chunk as delivered by the stream machinery: either a string or some
non-string value (`typeof chunk !== 'string'`). -/
inductive JSChunk where
  | str (s : List Char)
  | nonString
deriving DecidableEq

/-- The message of the TypeError thrown for non-string chunks. -/
def chunkTypeError : List Char :=
  ("ServerSentEventTransformStream expects string chunks. Pipe through TextDecoderStream first for byte streams.").toList

/-- `transform` including the leading chunk-type check: a non-string
chunk throws before touching any state. -/
def transformChecked (c : JSChunk) (st : StreamState) :
    Except (List Char) (StreamState × List OutEvent) :=
  match c with
  | .str s => .ok (transform s st)
  | .nonString => .error chunkTypeError

/-- Push chunks through `transformChecked` until the first thrown error;
returns the state reached, the records emitted, and the error if any.
A thrown error stops processing with the pre-call state intact. -/
def runChecked : List JSChunk → StreamState →
    StreamState × List OutEvent × Option (List Char)
  | [], st => (st, [], none)
  | c :: cs, st =>
    match transformChecked c st with
    | .ok (st2, o) =>
      let r := runChecked cs st2
      (r.1, o ++ r.2.1, r.2.2)
    | .error m => (st, [], some m)

/-- A `Response`-like object: possibly absent body of some stream type. -/
structure Response (β : Type) where
  body : Option β

/-- `parseServerSentEvents(response)` from the source: `response` absent
(null/undefined) or `response.body` absent throws a TypeError before any
read; otherwise the body is handed to the decoding/parsing pipeline
(modelled as returning the body to be piped). -/
def parseServerSentEvents {β : Type} (response : Option (Response β)) :
    Except (List Char) β :=
  match response with
  | none => .error (("Expected a Response object").toList)
  | some r =>
    match r.body with
    | none => .error (("Expected response to have a body").toList)
    | some b => .ok b

/-- Modelled from the spec (§4.2, claim C3): the value of the most recent
valid `id:` field in a list of lines, starting from `lid`; an `id:` whose
value contains NUL is skipped, empty lines and comments never change it. -/
def lastIdSpec : List Char → List (List Char) → List Char
  | lid, [] => lid
  | lid, l :: ls =>
    if l ≠ [] ∧ l.head? ≠ some ':' ∧ fieldOf l = ("id").toList ∧ ¬ ('\x00' ∈ valueOf l) then
      lastIdSpec (valueOf l) ls
    else
      lastIdSpec lid ls

/-- Modelled from the spec (§4.2, claim C5): the last `event:` field value
in a list of field lines, starting from `t`. -/
def typeSpec : List Char → List (List Char) → List Char
  | t, [] => t
  | t, l :: ls =>
    if l ≠ [] ∧ l.head? ≠ some ':' ∧ fieldOf l = ("event").toList then
      typeSpec (valueOf l) ls
    else
      typeSpec t ls

/-- Modelled from the spec (§4.2, claim C4): the most recent valid
`retry:` value in a list of field lines; an invalid value (empty or with
a non-digit) never overwrites the accumulator. -/
def retrySpec : Option Nat → List (List Char) → Option Nat
  | r, [] => r
  | r, l :: ls =>
    if l ≠ [] ∧ l.head? ≠ some ':' ∧ fieldOf l = ("retry").toList ∧
        valueOf l ≠ [] ∧ (valueOf l).all Char.isDigit then
      retrySpec (some (parseDigits (valueOf l))) ls
    else
      retrySpec r ls

/-- Modelled from the spec (§4.2, claim C2): the `data:` field values of
a list of field lines, in encounter order. -/
def dataValues : List (List Char) → List (List Char)
  | [] => []
  | l :: ls =>
    if l ≠ [] ∧ l.head? ≠ some ':' ∧ fieldOf l = ("data").toList then
      valueOf l :: dataValues ls
    else
      dataValues ls

/-- Each value followed by one newline, concatenated — the raw shape of
the in-progress `data` accumulator. -/
def accData : List (List Char) → List Char
  | [] => []
  | v :: vs => v ++ '\n' :: accData vs

/-- Modelled from the spec (claim C2): the values joined by a single
newline between consecutive pairs. -/
def joinNL : List (List Char) → List Char
  | [] => []
  | [v] => v
  | v :: vs => v ++ '\n' :: joinNL vs

/-! ### Characterisation of `processField` componentwise -/

theorem processField_snd (l : List Char) (e : SSEvent) (lid : List Char) :
    (processField l e lid).2 =
      if fieldOf l = ("id").toList ∧ ¬ ('\x00' ∈ valueOf l) then valueOf l else lid := by
  unfold processField
  split_ifs with h1 h2 h3 h4 h5 h6 <;> simp_all

theorem processField_type (l : List Char) (e : SSEvent) (lid : List Char) :
    (processField l e lid).1.type =
      if fieldOf l = ("event").toList then valueOf l else e.type := by
  unfold processField
  split_ifs with h1 h2 h3 h4 h5 h6 <;> simp_all

theorem processField_data (l : List Char) (e : SSEvent) (lid : List Char) :
    (processField l e lid).1.data =
      if fieldOf l = ("data").toList then e.data ++ valueOf l ++ ['\n'] else e.data := by
  unfold processField
  split_ifs with h1 h2 h3 h4 h5 h6 <;> simp_all

theorem processField_retry (l : List Char) (e : SSEvent) (lid : List Char) :
    (processField l e lid).1.retry =
      if fieldOf l = ("retry").toList ∧ valueOf l ≠ [] ∧ (valueOf l).all Char.isDigit then
        some (parseDigits (valueOf l))
      else e.retry := by
  unfold processField
  split_ifs with h1 h2 h3 h4 h5 h6 <;> simp_all

/-! ### `processLines` versus the spec-level folds -/

theorem processLines_lid (ls : List (List Char)) :
    ∀ e lid, (processLines ls e lid).1.2 = lastIdSpec lid ls := by
  induction ls with
  | nil => intro e lid; simp [processLines, lastIdSpec]
  | cons l ls ih =>
    intro e lid
    by_cases hl : l = []
    · subst hl; simp [processLines, lastIdSpec, ih]
    · by_cases hc : l.head? = some ':'
      · simp [processLines, lastIdSpec, hl, hc, ih]
      · simp [processLines, lastIdSpec, hl, hc, ih, processField_snd]
        split <;> rfl

theorem processLines_type (ls : List (List Char)) :
    ∀ e lid, [] ∉ ls → (processLines ls e lid).1.1.type = typeSpec e.type ls := by
  induction ls with
  | nil => intro e lid _; simp [processLines, typeSpec]
  | cons l ls ih =>
    intro e lid h
    have hl : l ≠ [] := fun hx => h (hx ▸ List.mem_cons_self l ls)
    have h' : [] ∉ ls := fun hx => h (List.mem_cons_of_mem l hx)
    by_cases hc : l.head? = some ':'
    · simp [processLines, typeSpec, hl, hc, ih _ _ h']
    · simp [processLines, typeSpec, hl, hc, ih _ _ h', processField_type]
      split <;> rfl

theorem processLines_retry (ls : List (List Char)) :
    ∀ e lid, [] ∉ ls → (processLines ls e lid).1.1.retry = retrySpec e.retry ls := by
  induction ls with
  | nil => intro e lid _; simp [processLines, retrySpec]
  | cons l ls ih =>
    intro e lid h
    have hl : l ≠ [] := fun hx => h (hx ▸ List.mem_cons_self l ls)
    have h' : [] ∉ ls := fun hx => h (List.mem_cons_of_mem l hx)
    by_cases hc : l.head? = some ':'
    · simp [processLines, retrySpec, hl, hc, ih _ _ h']
    · simp [processLines, retrySpec, hl, hc, ih _ _ h', processField_retry]
      split <;> rfl

theorem processLines_data (ls : List (List Char)) :
    ∀ e lid, [] ∉ ls → (processLines ls e lid).1.1.data = e.data ++ accData (dataValues ls) := by
  induction ls with
  | nil => intro e lid _; simp [processLines, dataValues, accData]
  | cons l ls ih =>
    intro e lid h
    have hl : l ≠ [] := fun hx => h (hx ▸ List.mem_cons_self l ls)
    have h' : [] ∉ ls := fun hx => h (List.mem_cons_of_mem l hx)
    by_cases hc : l.head? = some ':'
    · simp [processLines, dataValues, hl, hc, ih _ _ h']
    · simp [processLines, dataValues, accData, hl, hc, ih _ _ h', processField_data]
      split <;> simp [accData]

/-! ### Dispatch helpers -/

theorem dispatchEvent_eq_none_iff (e : SSEvent) (lid : List Char) :
    dispatchEvent e lid = none ↔ trimData e.data = [] := by
  unfold dispatchEvent
  split_ifs <;> simp_all

theorem dispatchEvent_eq_some (e : SSEvent) (lid : List Char) (h : trimData e.data ≠ []) :
    dispatchEvent e lid =
      some ⟨if e.type = [] then ("message").toList else e.type,
            trimData e.data, lid, e.retry⟩ := by
  unfold dispatchEvent
  simp [h]

theorem dispatchEvent_some_dest (e : SSEvent) (lid : List Char) (out : OutEvent)
    (h : dispatchEvent e lid = some out) :
    out.type = (if e.type = [] then ("message").toList else e.type) ∧
      out.data = trimData e.data ∧ out.lastEventId = lid ∧ out.retry = e.retry := by
  by_cases ht : trimData e.data = []
  · rw [(dispatchEvent_eq_none_iff e lid).2 ht] at h
    cases h
  · rw [dispatchEvent_eq_some e lid ht] at h
    cases h
    simp

/-! ### Data-joining helpers -/

theorem accData_eq_joinNL (vs : List (List Char)) (h : vs ≠ []) :
    accData vs = joinNL vs ++ ['\n'] := by
  induction vs with
  | nil => exact absurd rfl h
  | cons v vs ih =>
    cases vs with
    | nil => simp [accData, joinNL]
    | cons w ws =>
      rw [show accData (v :: w :: ws) = v ++ '\n' :: accData (w :: ws) from rfl, ih (by simp)]
      simp [joinNL]

theorem trimData_concat (d : List Char) : trimData (d ++ ['\n']) = d := by
  unfold trimData
  rw [if_pos, List.dropLast_concat]
  rw [List.getLast?_concat]

theorem trimData_nil : trimData [] = [] := by rfl

/-! ### Field/value splitting helpers -/

theorem fieldOf_of_no_colon (l : List Char) (h : ':' ∉ l) : fieldOf l = l := by
  induction l with
  | nil => rfl
  | cons c l ih =>
    have hc : c ≠ ':' := fun hx => h (hx ▸ List.mem_cons_self c l)
    have h' : ':' ∉ l := fun hx => h (List.mem_cons_of_mem c hx)
    simp [fieldOf, hc]
    simpa [fieldOf] using ih h'

theorem rawValue_of_no_colon (l : List Char) (h : ':' ∉ l) : rawValue l = [] := by
  induction l with
  | nil => rfl
  | cons c l ih =>
    have hc : c ≠ ':' := fun hx => h (hx ▸ List.mem_cons_self c l)
    have h' : ':' ∉ l := fun hx => h (List.mem_cons_of_mem c hx)
    simp [rawValue, hc]
    simpa [rawValue] using ih h'

theorem valueOf_of_no_colon (l : List Char) (h : ':' ∉ l) : valueOf l = [] := by
  simp [valueOf, rawValue_of_no_colon l h]

theorem fieldOf_split (f v : List Char) (h : ':' ∉ f) :
    fieldOf (f ++ ':' :: v) = f := by
  induction f with
  | nil => simp [fieldOf]
  | cons c f ih =>
    have hc : c ≠ ':' := fun hx => h (hx ▸ List.mem_cons_self c f)
    have h' : ':' ∉ f := fun hx => h (List.mem_cons_of_mem c hx)
    simp [fieldOf, hc]
    simpa [fieldOf] using ih h'

theorem rawValue_split (f v : List Char) (h : ':' ∉ f) :
    rawValue (f ++ ':' :: v) = v := by
  induction f with
  | nil => simp [rawValue]
  | cons c f ih =>
    have hc : c ≠ ':' := fun hx => h (hx ▸ List.mem_cons_self c f)
    have h' : ':' ∉ f := fun hx => h (List.mem_cons_of_mem c hx)
    simp only [List.cons_append]
    rw [show rawValue (c :: (f ++ ':' :: v)) = rawValue (f ++ ':' :: v) by simp [rawValue, hc]]
    exact ih h'

/-! ### Claims -/

/-- Claim C1: fragmentation-invariance is REFUTED by the code.  A chunk
ending in a lone CR is split eagerly, so a CR/LF pair straddling a
fragment boundary is treated as two terminators: the LF arriving at the
start of the next chunk yields a spurious empty line and a spurious
dispatch.  Pushing `"data: a\r"` then `"\ndata: b\n\n"` emits two events
(`"a"` and `"b"`), while the same text as one fragment emits the single
event `"a\nb"`. -/
theorem claim1_crlf_fragmentation :
    runChunks [("data: a\r").toList, ("\ndata: b\n\n").toList] =
      [⟨("message").toList, ("a").toList, [], none⟩,
       ⟨("message").toList, ("b").toList, [], none⟩] ∧
    runChunks [("data: a\r\ndata: b\n\n").toList] =
      [⟨("message").toList, ("a\nb").toList, [], none⟩] ∧
    runChunks [("data: a\r").toList, ("\ndata: b\n\n").toList] ≠
      runChunks [("data: a\r\ndata: b\n\n").toList] :=
  ⟨by decide, by decide, by decide⟩

/-- Claim C2: processing the field lines of one event from a fresh
accumulator leaves `data` equal to the `data:` values each followed by
one newline; the dispatch attempt emits nothing when the values joined by
single newlines are empty, and otherwise emits a record whose data is
exactly that join (one trailing newline removed, never more). -/
theorem claim2_dispatch_data (ls : List (List Char)) (lid : List Char) (h : [] ∉ ls) :
    (processLines ls createEvent lid).1.1.data = accData (dataValues ls) ∧
    (joinNL (dataValues ls) = [] →
      dispatchEvent (processLines ls createEvent lid).1.1
        (processLines ls createEvent lid).1.2 = none) ∧
    (joinNL (dataValues ls) ≠ [] →
      ∃ out, dispatchEvent (processLines ls createEvent lid).1.1
          (processLines ls createEvent lid).1.2 = some out ∧
        out.data = joinNL (dataValues ls)) := by
  have hdata : (processLines ls createEvent lid).1.1.data = accData (dataValues ls) := by
    simpa [createEvent] using processLines_data ls createEvent lid h
  refine ⟨hdata, ?_, ?_⟩
  · intro hj
    rw [dispatchEvent_eq_none_iff, hdata]
    cases hvs : dataValues ls with
    | nil => simp [accData, trimData_nil]
    | cons v vs =>
      rw [accData_eq_joinNL _ (by simp), trimData_concat, ← hvs]
      exact hj
  · intro hj
    have hvs : dataValues ls ≠ [] := by
      intro hx
      rw [hx] at hj
      exact hj rfl
    have htrim : trimData (processLines ls createEvent lid).1.1.data =
        joinNL (dataValues ls) := by
      rw [hdata, accData_eq_joinNL _ hvs, trimData_concat]
    exact ⟨_, dispatchEvent_eq_some _ _ (by rw [htrim]; exact hj), by simp [htrim]⟩

/-- Witness for claim C2 at the single line `data: x`. -/
theorem claim2_dispatch_data_witness :
    ∃ out, dispatchEvent (processLines [("data: x").toList] createEvent []).1.1
        (processLines [("data: x").toList] createEvent []).1.2 = some out ∧
      out.data = joinNL (dataValues [("data: x").toList]) :=
  (claim2_dispatch_data [("data: x").toList] [] (by decide)).2.2 (by decide)

/-- Claim C3: the connection-scoped `lastEventId` after any list of lines
equals the most recent valid `id:` value (NUL-containing values ignored,
empty values reset, updates independent of whether events dispatch), and
every emitted record snapshots the current value at dispatch time. -/
theorem claim3_lastEventId :
    (∀ (ls : List (List Char)) (e : SSEvent) (lid : List Char),
      (processLines ls e lid).1.2 = lastIdSpec lid ls) ∧
    (∀ (e : SSEvent) (lid : List Char) (out : OutEvent),
      dispatchEvent e lid = some out → out.lastEventId = lid) :=
  ⟨fun ls e lid => processLines_lid ls e lid,
   fun e lid out h => (dispatchEvent_some_dest e lid out h).2.2.1⟩

/-- Witness for claim C3: an `id:` line with a NUL is ignored while a
valid one wins, and a dispatched record carries the current id. -/
theorem claim3_lastEventId_witness :
    (processLines [("id: 9").toList, ("id: a" ++ ⟨['\x00']⟩ ++ "b").toList]
        createEvent []).1.2 =
      lastIdSpec [] [("id: 9").toList, ("id: a" ++ ⟨['\x00']⟩ ++ "b").toList] ∧
    (⟨("message").toList, ("x").toList, ("7").toList, none⟩ : OutEvent).lastEventId =
      ("7").toList :=
  ⟨claim3_lastEventId.1 _ createEvent [],
   claim3_lastEventId.2 ⟨[], ("x\n").toList, none⟩ (("7").toList) _ (by decide)⟩

/-- Claim C4: the in-progress `retry` after a run of field lines equals
the most recent valid all-digit `retry:` value (invalid values ignored
and never clearing an earlier valid one), it starts absent on a fresh
event, and a dispatched record carries it through unchanged (absent when
never validly set). -/
theorem claim4_retry :
    (∀ (ls : List (List Char)) (e : SSEvent) (lid : List Char), [] ∉ ls →
      (processLines ls e lid).1.1.retry = retrySpec e.retry ls) ∧
    createEvent.retry = none ∧
    (∀ (e : SSEvent) (lid : List Char) (out : OutEvent),
      dispatchEvent e lid = some out → out.retry = e.retry) :=
  ⟨fun ls e lid h => processLines_retry ls e lid h, rfl,
   fun e lid out h => (dispatchEvent_some_dest e lid out h).2.2.2⟩

/-- Witness for claim C4: a valid `retry: 70` followed by an invalid
`retry: 7x`, and a dispatched record keeping `retry`. -/
theorem claim4_retry_witness :
    (processLines [("retry: 70").toList, ("retry: 7x").toList] createEvent []).1.1.retry =
      retrySpec createEvent.retry [("retry: 70").toList, ("retry: 7x").toList] ∧
    (⟨("message").toList, ("x").toList, [], some 70⟩ : OutEvent).retry = some 70 :=
  ⟨claim4_retry.1 _ createEvent [] (by decide),
   claim4_retry.2.2 ⟨[], ("x\n").toList, some 70⟩ [] _ (by decide)⟩

/-- Claim C5: the in-progress `type` after a run of field lines is the
last `event:` value, it starts empty on a fresh event, a dispatched
record defaults an empty type to `"message"`, and an empty line resets
the accumulator to a fresh event so a custom type never leaks into the
next event. -/
theorem claim5_type :
    (∀ (ls : List (List Char)) (e : SSEvent) (lid : List Char), [] ∉ ls →
      (processLines ls e lid).1.1.type = typeSpec e.type ls) ∧
    createEvent.type = [] ∧
    (∀ (e : SSEvent) (lid : List Char) (out : OutEvent), dispatchEvent e lid = some out →
      out.type = (if e.type = [] then ("message").toList else e.type)) ∧
    (∀ (ls : List (List Char)) (e : SSEvent) (lid : List Char),
      (processLines ([] :: ls) e lid).1 = (processLines ls createEvent lid).1) := by
  refine ⟨fun ls e lid h => processLines_type ls e lid h, rfl,
    fun e lid out h => (dispatchEvent_some_dest e lid out h).1, ?_⟩
  intro ls e lid
  simp [processLines]

/-- Witness for claim C5 at `event: update`, a dispatch with empty type,
and a reset after an empty line. -/
theorem claim5_type_witness :
    (processLines [("event: update").toList] createEvent []).1.1.type =
      typeSpec createEvent.type [("event: update").toList] ∧
    (⟨("message").toList, ("x").toList, [], none⟩ : OutEvent).type =
      (if ([] : List Char) = [] then ("message").toList else []) ∧
    (processLines ([] :: [("data: y").toList]) ⟨("update").toList, [], none⟩ []).1 =
      (processLines [("data: y").toList] createEvent []).1 :=
  ⟨claim5_type.1 _ createEvent [] (by decide),
   claim5_type.2.2.1 ⟨[], ("x\n").toList, none⟩ [] _ (by decide),
   claim5_type.2.2.2 [("data: y").toList] ⟨("update").toList, [], none⟩ []⟩

/-- Claim C6: a line starting with `:` is skipped with no state change; a
colon-less line is all field with empty value; otherwise the field is the
part before the first colon and the value the part after it, with exactly
one leading space stripped from the value and any further spaces kept. -/
theorem claim6_line_split :
    (∀ (l : List Char) (ls : List (List Char)) (e : SSEvent) (lid : List Char),
      l.head? = some ':' → processLines (l :: ls) e lid = processLines ls e lid) ∧
    (∀ l : List Char, ':' ∉ l → fieldOf l = l ∧ valueOf l = []) ∧
    (∀ f v : List Char, ':' ∉ f → fieldOf (f ++ ':' :: v) = f) ∧
    (∀ f v : List Char, ':' ∉ f → v.head? ≠ some ' ' → valueOf (f ++ ':' :: v) = v) ∧
    (∀ f v : List Char, ':' ∉ f → valueOf (f ++ ':' :: ' ' :: v) = v) := by
  refine ⟨?_, ?_, ?_, ?_, ?_⟩
  · intro l ls e lid h
    have hl : l ≠ [] := by
      intro hx
      subst hx
      simp at h
    simp [processLines, hl, h]
  · intro l h
    exact ⟨fieldOf_of_no_colon l h, valueOf_of_no_colon l h⟩
  · intro f v h
    exact fieldOf_split f v h
  · intro f v h hv
    simp [valueOf, rawValue_split f v h, hv]
  · intro f v h
    simp [valueOf, rawValue_split f (' ' :: v) h]

/-- Witness for claim C6 at a comment line, a colon-less line, and a
`data:  two`-style line with two spaces. -/
theorem claim6_line_split_witness :
    processLines [(": c").toList, ("data: z").toList] createEvent [] =
      processLines [("data: z").toList] createEvent [] ∧
    (fieldOf (("nocolon").toList) = ("nocolon").toList ∧
      valueOf (("nocolon").toList) = []) ∧
    fieldOf (("data").toList ++ ':' :: ("  two").toList) = ("data").toList ∧
    valueOf (("data").toList ++ ':' :: ("x").toList) = ("x").toList ∧
    valueOf (("data").toList ++ ':' :: ' ' :: (" two").toList) = (" two").toList :=
  ⟨claim6_line_split.1 _ _ createEvent [] (by decide),
   claim6_line_split.2.1 _ (by decide),
   claim6_line_split.2.2.1 _ _ (by decide),
   claim6_line_split.2.2.2.1 _ _ (by decide) (by decide),
   claim6_line_split.2.2.2.2 _ _ (by decide)⟩

/-- Claim C7: a non-string chunk makes the transform stage throw its
TypeError immediately — the pre-call state is intact, no events are
emitted, and no later chunk is processed — and the adapter throws its
TypeError for an absent response or an absent body before any read. -/
theorem claim7_usage_errors :
    (∀ (cs : List JSChunk) (st : StreamState),
      runChecked (JSChunk.nonString :: cs) st = (st, [], some chunkTypeError)) ∧
    parseServerSentEvents (none : Option (Response Unit)) =
      .error (("Expected a Response object").toList) ∧
    (∀ (β : Type), parseServerSentEvents (some (⟨none⟩ : Response β)) =
      .error (("Expected response to have a body").toList)) :=
  ⟨fun _ _ => rfl, rfl, fun _ => rfl⟩

/-- Claim C8: REFUTED as stated.  The byte-order mark is stripped from
the start of the first pushed fragment only; under the fragmentation
`["", "<BOM>data: hi\n\n"]` the stream text starts with a BOM, yet it is
not stripped (the first line becomes an unknown field and no event is
emitted), while the unfragmented stream emits the event. -/
theorem claim8_bom_counterexample :
    runChunks [[], '\uFEFF' :: ("data: hi\n\n").toList] = [] ∧
    runChunks ['\uFEFF' :: ("data: hi\n\n").toList] =
      [⟨("message").toList, ("hi").toList, [], none⟩] :=
  ⟨by decide, by decide⟩

/-- Claim C8 (amended): exactly one byte-order mark is stripped, and only
when it is the very first character of the first pushed fragment (hence
at the stream start whenever the first fragment is non-empty, and always
for single-fragment input); on later fragments no stripping ever happens,
so a BOM elsewhere — inside a `data:` value in particular — is ordinary
data preserved verbatim. -/
theorem claim8_bom_amended :
    (∀ s : List Char, stripBOM ('\uFEFF' :: s) = s) ∧
    (∀ s : List Char, s.head? ≠ some '\uFEFF' → stripBOM s = s) ∧
    (∀ (c : List Char) (st : StreamState), st.isFirstChunk = false →
      transform c st = transformCore c st) ∧
    (∀ (c : List Char) (st : StreamState), st.isFirstChunk = true →
      transform c st = transformCore (stripBOM c) st) ∧
    runChunks [("data: \uFEFFx\n\n").toList] =
      [⟨("message").toList, ('\uFEFF' :: ("x").toList), [], none⟩] := by
  refine ⟨fun s => by simp [stripBOM], ?_, ?_, ?_, by decide⟩
  · intro s h
    simp [stripBOM, h]
  · intro c st h
    simp [transform, h]
  · intro c st h
    simp [transform, h]

/-- Witness for claim C8 (amended): no stripping without a leading BOM,
and a non-first chunk is processed verbatim. -/
theorem claim8_bom_amended_witness :
    stripBOM (("abc").toList) = ("abc").toList ∧
    transform (("x").toList) ⟨[], false, createEvent, []⟩ =
      transformCore (("x").toList) ⟨[], false, createEvent, []⟩ :=
  ⟨claim8_bom_amended.2.1 _ (by decide),
   claim8_bom_amended.2.2.1 _ _ rfl⟩

/-- Claim C9: at flush a non-empty non-comment remainder goes through the
field logic as one final line and then a final dispatch attempt is made;
an empty or comment remainder goes straight to the final dispatch
attempt; so a stream ending mid-line still yields its dangling event. -/
theorem claim9_flush :
    (∀ st : StreamState, st.buffer ≠ [] → st.buffer.head? ≠ some ':' →
      flush st = (dispatchEvent (processField st.buffer st.event st.lastEventId).1
        (processField st.buffer st.event st.lastEventId).2).toList) ∧
    (∀ st : StreamState, st.buffer.head? = some ':' →
      flush st = (dispatchEvent st.event st.lastEventId).toList) ∧
    (∀ st : StreamState, st.buffer = [] →
      flush st = (dispatchEvent st.event st.lastEventId).toList) ∧
    runChunks [("data: hello").toList] =
      [⟨("message").toList, ("hello").toList, [], none⟩] := by
  refine ⟨?_, ?_, ?_, by decide⟩
  · intro st h1 h2
    simp [flush, h1, h2]
  · intro st h
    simp [flush, h]
  · intro st h
    simp [flush, h]

/-- Witness for claim C9 at a dangling `data: hi` remainder, a comment
remainder, and an empty remainder. -/
theorem claim9_flush_witness :
    flush ⟨("data: hi").toList, false, createEvent, []⟩ =
      (dispatchEvent (processField (("data: hi").toList) createEvent []).1
        (processField (("data: hi").toList) createEvent []).2).toList ∧
    flush ⟨(": c").toList, false, createEvent, []⟩ =
      (dispatchEvent createEvent []).toList ∧
    flush ⟨[], false, createEvent, []⟩ = (dispatchEvent createEvent []).toList :=
  ⟨claim9_flush.1 ⟨("data: hi").toList, false, createEvent, []⟩ (by decide) (by decide),
   claim9_flush.2.1 ⟨(": c").toList, false, createEvent, []⟩ (by decide),
   claim9_flush.2.2.1 ⟨[], false, createEvent, []⟩ rfl⟩

/-- Claim C10: a dispatch attempt happens only for the exactly-empty
line: any non-empty line is either a comment or a field line and emits
nothing, and a line of only spaces is a colon-less unknown field that
changes neither the event nor `lastEventId`. -/
theorem claim10_dispatch_only_empty :
    (∀ (l : List Char) (ls : List (List Char)) (e : SSEvent) (lid : List Char), l ≠ [] →
      processLines (l :: ls) e lid =
        (if l.head? = some ':' then processLines ls e lid
         else processLines ls (processField l e lid).1 (processField l e lid).2)) ∧
    (∀ (l : List Char) (e : SSEvent) (lid : List Char), l ≠ [] → (∀ c ∈ l, c = ' ') →
      processField l e lid = (e, lid)) := by
  refine ⟨?_, ?_⟩
  · intro l ls e lid h
    simp [processLines, h]
  · intro l e lid h hsp
    have hnc : ':' ∉ l := by
      intro hx
      have := hsp ':' hx
      simp at this
    have hf : fieldOf l = l := fieldOf_of_no_colon l hnc
    obtain ⟨c, l', rfl⟩ : ∃ c l', l = c :: l' := by
      cases l with
      | nil => exact absurd rfl h
      | cons c l' => exact ⟨c, l', rfl⟩
    have hc : c = ' ' := hsp c (List.mem_cons_self c l')
    subst hc
    unfold processField
    rw [hf, if_neg (by simp), if_neg (by simp), if_neg (by simp), if_neg (by simp)]

/-- Witness for claim C10 at the line `"   "` of three spaces. -/
theorem claim10_dispatch_only_empty_witness :
    processLines [("   ").toList] createEvent [] =
      (if (("   ").toList).head? = some ':' then processLines [] createEvent []
       else processLines [] (processField (("   ").toList) createEvent []).1
         (processField (("   ").toList) createEvent []).2) ∧
    processField (("   ").toList) createEvent [] = (createEvent, []) :=
  ⟨claim10_dispatch_only_empty.1 _ [] createEvent [] (by decide),
   claim10_dispatch_only_empty.2 _ createEvent [] (by decide) (by decide)⟩
